import Mathlib

/-!
Verification of the expiry-monitoring core (streamlit_app.py) against its
natural-language specification.

The embedding models the inference-and-classification engine of the
application class: date-column detection, item-column resolution,
additional-info extraction, per-row urgency classification, per-sheet
orchestration with the per-sheet exception boundary, and final
aggregation/sorting.

Cell values are a tagged variant (null, text, number, date); a date cell
carries its timestamp measured in whole days, and the clock value today is
an integer of the same unit, so that the source expression
(expiry_date - today).days becomes integer subtraction.  A value the date
parser accepts is represented structurally by the date constructor, so the
coercing conversion pd.to_datetime(column, errors=coerce) maps date cells
to themselves and every other value to null.

Exceptions at the sheet boundary are modelled by a failure oracle attached
to each sheet: either the sheet read itself fails (readFail, nothing of the
sheet was executed), or an exception fires after a given number of
(date-column, row) iterations of the processing loops (the fuel counter);
the try/except in the source leaves all state mutations made before the
exception in place, which is exactly what the fuel semantics does.
-/

namespace ExpiryApp

/-! ### String helpers: lowercasing and the Python substring test -/

/-- Lowercase every character, modelling str(col).lower(). -/
def lowerStr (s : String) : String := ⟨s.data.map Char.toLower⟩

/-- Boolean test that the first list is an initial segment of the second. -/
def listPre : List Char → List Char → Bool
  | [], _ => true
  | _ :: _, [] => false
  | a :: as, b :: bs => a == b && listPre as bs

/-- Boolean test that the first list occurs contiguously inside the second. -/
def listSub (needle : List Char) : List Char → Bool
  | [] => needle.isEmpty
  | b :: bs => listPre needle (b :: bs) || listSub needle bs

/-- Python membership test keyword in col_str (contiguous substring). -/
def substrOf (needle hay : String) : Bool := listSub needle.data hay.data

/-! ### Cells, columns, tables -/

/-- A cell value: null, text, a number, or a date carrying a timestamp in days. -/
inductive Cell
  | null
  | text (s : String)
  | num (n : Int)
  | date (t : Int)
deriving DecidableEq

/-- The pandas dtype of a column, as far as the source inspects it. -/
inductive Dtype
  | object
  | numeric
  | datetime64
deriving DecidableEq

/-- A named column together with its dtype. -/
structure Col where
  name : String
  dtype : Dtype
deriving DecidableEq

/-- A sheet as a table: ordered columns and rows of cells, positionally aligned. -/
structure Table where
  cols : List Col
  rows : List (List Cell)
deriving DecidableEq

/-- Python pd.notna on a single cell. -/
def cellNotNa : Cell → Bool
  | .null => false
  | _ => true

/-- Python str(value) on a cell (the exact rendering of numbers and dates is
irrelevant to every claim; text cells render as themselves). -/
def cellStr : Cell → String
  | .null => "nan"
  | .text s => s
  | .num n => toString n
  | .date t => toString t

/-- Coercing date conversion on one cell: pd.to_datetime(value, errors=coerce).
Date cells parse to themselves, everything else coerces to null (NaT). -/
def toDatetime : Cell → Cell
  | .date t => .date t
  | _ => .null

/-- Read off the timestamp of a date cell. -/
def cellDate : Cell → Option Int
  | .date t => some t
  | _ => none

/-- Index of the first column with the given name (pandas label lookup). -/
def colIdx (cols : List Col) (name : String) : Option Nat :=
  match cols with
  | [] => none
  | c :: cs => if c.name == name then some 0 else (colIdx cs name).map (· + 1)

/-- Row access by column label, row[col]; missing labels and short rows read null. -/
def rowVal (cols : List Col) (r : List Cell) (name : String) : Cell :=
  match colIdx cols name with
  | some i => r.getD i Cell.null
  | none => Cell.null

/-- All cells of the column at position i, top to bottom. -/
def colCells (tbl : Table) (i : Nat) : List Cell :=
  tbl.rows.map (fun r => r.getD i Cell.null)

/-! ### Column classification (detect_date_columns) -/

/-- Keyword set of the date-column detector, in source order. -/
def date_keywords : List String :=
  ["expiry", "expiration", "expire", "expires", "expiring",
   "valid", "validity", "valid until", "valid till",
   "use by", "best before", "shelf life", "due date", "end date", "date"]

/-- Statistical fallback test for one column: more than half of the cells parse
as dates and at least one parsed date is strictly in the future. -/
def dateColStat (today : Int) (tbl : Table) (c : Col) : Bool :=
  let cells := match colIdx tbl.cols c.name with
    | some i => colCells tbl i
    | none => []
  let parsed := cells.map toDatetime
  let valid := parsed.countP (fun x => cellNotNa x)
  let total := parsed.length
  decide (0 < total) && decide (total < 2 * valid) &&
    parsed.any (fun x => match x with | .date t => decide (today < t) | _ => false)

/-- Source function detect_date_columns: keyword pass first, statistical
fallback only when the keyword pass found nothing. -/
def detect_date_columns (today : Int) (tbl : Table) : List String :=
  let m1 := (tbl.cols.filter
    (fun c => date_keywords.any (fun kw => substrOf kw (lowerStr c.name)))).map Col.name
  if m1.isEmpty then
    (tbl.cols.filter (dateColStat today tbl)).map Col.name
  else m1

/-! ### Item-column resolution (detect_item_column) -/

/-- Keyword set of the item-column detector, in source order. -/
def item_keywords : List String :=
  ["name", "item", "product", "reagent", "chemical", "material", "description"]

/-- Scan positions j-1, j-2, ..., 0 for the first object-dtype column
(range(date_col_idx - 1, -1, -1) in the source). -/
def leftScan (cols : List Col) : Nat → Option String
  | 0 => none
  | j + 1 =>
    match cols[j]? with
    | some c => if c.dtype == Dtype.object then some c.name else leftScan cols j
    | none => leftScan cols j

/-- Source function detect_item_column: keyword match, then positional
left-scan from the date column (skipped when the label lookup would raise),
then first object-dtype column overall. -/
def detect_item_column (tbl : Table) (dateCol : String) : Option String :=
  match tbl.cols.find? (fun c =>
      c.name != dateCol && item_keywords.any (fun kw => substrOf kw (lowerStr c.name))) with
  | some c => some c.name
  | none =>
    let m2 : Option String :=
      match colIdx tbl.cols dateCol with
      | some i => leftScan tbl.cols i
      | none => none
    match m2 with
    | some c => some c
    | none =>
      (tbl.cols.find? (fun c => c.name != dateCol && c.dtype == Dtype.object)).map Col.name

/-! ### Additional-info extraction (extract_additional_info) -/

/-- The five keyword groups, in source (dict insertion) order. -/
def additional_keywords : List (String × List String) :=
  [("lot", ["lot", "batch", "lot number", "batch number"]),
   ("catalog", ["catalog", "cat#", "cat no", "catalogue"]),
   ("quantity", ["quantity", "qty", "amount", "volume", "vol"]),
   ("location", ["location", "storage", "position", "shelf", "cabinet"]),
   ("supplier", ["supplier", "vendor", "manufacturer", "company"])]

/-- Python dict assignment info[k] = v: update in place if the key exists
(keeping its position), otherwise append at the end. -/
def dictInsert (info : List (String × String)) (k v : String) : List (String × String) :=
  if info.any (fun p => p.1 == k) then
    info.map (fun p => if p.1 == k then (k, v) else p)
  else info ++ [(k, v)]

/-- Source function extract_additional_info.  For every column other than the
item and date columns whose value is non-null, every keyword group is tested
in order and each group with a keyword hit stores the stringified value under
its key (the break in the source only ends the keyword loop of the current
group, not the group loop). -/
def extract_additional_info (cols : List Col) (r : List Cell)
    (itemCol : Option String) (dateCol : String) : List (String × String) :=
  cols.foldl (fun info c =>
    if c.name == dateCol || itemCol == some c.name then info
    else if cellNotNa (rowVal cols r c.name) then
      additional_keywords.foldl (fun info2 kg =>
        if kg.2.any (fun kw => substrOf kw (lowerStr c.name)) then
          dictInsert info2 kg.1 (cellStr (rowVal cols r c.name))
        else info2) info
    else info) []

/-! ### Urgency classification (calculate_urgency) -/

/-- Source function calculate_urgency. -/
def calculate_urgency (days_left warning_days : Int) : String :=
  if days_left < 0 then "expired"
  else if days_left ≤ 30 then "critical"
  else if days_left ≤ 60 then "urgent"
  else if days_left ≤ warning_days then "warning"
  else "info"

/-! ### Run state, rows, sheets, the whole run (process_excel_file) -/

/-- One produced ExpiringItem (item_data in the source). -/
structure Item where
  sheet : String
  item : String
  expiry_date : Int
  days_left : Int
  urgency : String
  additional_info : List (String × String)
deriving DecidableEq

/-- The mutable run state: the item collection plus the stats counters. -/
structure State where
  expiring_items : List Item
  total_rows : Nat
  sheets_processed : Nat
  items_found : Nat
deriving DecidableEq

/-- Run configuration: the warning period, the excluded sheet names, and the
injected clock value (datetime.now()), in days. -/
structure Config where
  warning_days : Int
  exclude_sheets : List String
  today : Int
deriving DecidableEq

/-- Item-name resolution fallback: first non-null value outside the date
column, stringified, else the placeholder. -/
def fallbackName (cols : List Col) (r : List Cell) (dateCol : String) : String :=
  match cols.find? (fun c => c.name != dateCol && cellNotNa (rowVal cols r c.name)) with
  | some c => cellStr (rowVal cols r c.name)
  | none => "Unknown Item"

/-- Item-name resolution: use the item column when it is truthy, present and
non-null in this row, otherwise the fallback scan. -/
def itemNameOf (cols : List Col) (r : List Cell)
    (itemCol : Option String) (dateCol : String) : String :=
  match itemCol with
  | some ic =>
    if ic != "" && (colIdx cols ic).isSome && cellNotNa (rowVal cols r ic) then
      cellStr (rowVal cols r ic)
    else fallbackName cols r dateCol
  | none => fallbackName cols r dateCol

/-- The ExpiringItem built for an admitted row (item_data in the source). -/
def mkItem (cfg : Config) (sheetName : String) (itemCol : Option String)
    (dateCol : String) (cols : List Col) (r : List Cell) (t : Int) : Item :=
  { sheet := sheetName
    item := itemNameOf cols r itemCol dateCol
    expiry_date := t
    days_left := t - cfg.today
    urgency := calculate_urgency (t - cfg.today) cfg.warning_days
    additional_info := extract_additional_info cols r itemCol dateCol }

/-- One iteration of the inner row loop of process_excel_file (lines 253-291
of the source): skip null dates, count the scan, apply the inclusion filter,
and on admission build the item and bump the found counter. -/
def processRow (cfg : Config) (sheetName : String) (itemCol : Option String)
    (dateCol : String) (cols : List Col) (r : List Cell) (st : State) : State :=
  match cellDate (rowVal cols r dateCol) with
  | none => st
  | some t =>
    if 0 ≤ t - cfg.today ∧ t - cfg.today ≤ cfg.warning_days then
      { st with total_rows := st.total_rows + 1,
                expiring_items :=
                  st.expiring_items ++ [mkItem cfg sheetName itemCol dateCol cols r t],
                items_found := st.items_found + 1 }
    else { st with total_rows := st.total_rows + 1 }

/-- Fuel test: the pending exception fires now. -/
def fuelDone : Option Nat → Bool
  | some 0 => true
  | _ => false

/-- Fuel step: one loop iteration was completed before the exception. -/
def fuelTick : Option Nat → Option Nat
  | none => none
  | some n => some (n - 1)

/-- The row loop over one date column, threading the failure fuel. -/
def processRows (cfg : Config) (sheetName : String) (itemCol : Option String)
    (dateCol : String) (cols : List Col) :
    List (List Cell) → State → Option Nat → State × Option Nat
  | [], st, fuel => (st, fuel)
  | r :: rs, st, fuel =>
    if fuelDone fuel then (st, fuel)
    else processRows cfg sheetName itemCol dateCol cols rs
      (processRow cfg sheetName itemCol dateCol cols r st) (fuelTick fuel)

/-- In-place coercing conversion of one column,
df[date_col] = pd.to_datetime(df[date_col], errors=coerce): the cells of the
column are coerced and its dtype becomes datetime64. -/
def convertCol (tbl : Table) (name : String) : Table :=
  match colIdx tbl.cols name with
  | some i =>
    { cols :=
        match tbl.cols[i]? with
        | some c => tbl.cols.set i { c with dtype := Dtype.datetime64 }
        | none => tbl.cols
      rows := tbl.rows.map (fun r => r.set i (toDatetime (r.getD i Cell.null))) }
  | none => tbl

/-- The outer loop over detected date columns: resolve the item column on the
current (partially converted) table, convert the date column in place, then
run the row loop; the converted table is threaded to later date columns. -/
def processDateCols (cfg : Config) (sheetName : String) :
    List String → Table → State → Option Nat → State
  | [], _, st, _ => st
  | dc :: dcs, tbl, st, fuel =>
    if fuelDone fuel then st
    else
      let itemCol := detect_item_column tbl dc
      let tbl2 := convertCol tbl dc
      let res := processRows cfg sheetName itemCol dc tbl2.cols tbl2.rows st fuel
      processDateCols cfg sheetName dcs tbl2 res.1 res.2

/-- One sheet as supplied to a run, together with its failure oracle: either
the sheet read itself raises, or the sheet is a table and an exception
optionally fires after the given number of loop iterations. -/
inductive SheetData
  | readFail
  | table (tbl : Table) (failAfter : Option Nat)
deriving DecidableEq

/-- Processing of one non-excluded sheet inside the per-sheet try: a failed
read leaves the state untouched; an empty table is skipped before the
processed counter; otherwise the counter is bumped, date columns are
detected once on the unconverted table, and the date-column loop runs. -/
def processSheet (cfg : Config) (sheetName : String) (sd : SheetData) (st : State) : State :=
  match sd with
  | .readFail => st
  | .table tbl fuel =>
    if tbl.rows.isEmpty || tbl.cols.isEmpty then st
    else
      let st1 : State := { st with sheets_processed := st.sheets_processed + 1 }
      processDateCols cfg sheetName (detect_date_columns cfg.today tbl) tbl st1 fuel

/-- A workbook as supplied to a run: either opening it fails, or it is an
ordered list of named sheets. -/
inductive Upload
  | openFail
  | wb (sheets : List (String × SheetData))
deriving DecidableEq

/-- The reset state at the start of every run. -/
def initState : State :=
  { expiring_items := [], total_rows := 0, sheets_processed := 0, items_found := 0 }

/-- One iteration of the sheet loop: excluded sheets are skipped before the
per-sheet try. -/
def sheetStep (cfg : Config) (st : State) (entry : String × SheetData) : State :=
  if cfg.exclude_sheets.contains entry.1 then st
  else processSheet cfg entry.1 entry.2 st

/-- Rank used by the final sort, urgency_order.get(urgency, 999). -/
def urgency_order : List (String × Nat) :=
  [("expired", 0), ("critical", 1), ("urgent", 2), ("warning", 3), ("info", 4)]

/-- Lookup into the rank table with default 999. -/
def urgencyRank (u : String) : Nat :=
  match urgency_order.find? (fun p => p.1 == u) with
  | some p => p.2
  | none => 999

/-- The sort key of one item, (urgency rank, days left). -/
def itemKey (x : Item) : Nat × Int := (urgencyRank x.urgency, x.days_left)

/-- Lexicographic comparison of sort keys (Python tuple comparison). -/
def keyLe (a b : Item) : Bool :=
  decide ((itemKey a).1 < (itemKey b).1) ||
    (decide ((itemKey a).1 = (itemKey b).1) && decide ((itemKey a).2 ≤ (itemKey b).2))

/-- Strict lexicographic comparison of sort keys. -/
def keyLt (a b : Item) : Bool :=
  decide ((itemKey a).1 < (itemKey b).1) ||
    (decide ((itemKey a).1 = (itemKey b).1) && decide ((itemKey a).2 < (itemKey b).2))

/-- Stable ascending insertion: the new element is placed after every element
with a strictly smaller key and before the first element whose key is not
strictly smaller, so elements with equal keys keep their relative order. -/
def insAsc (a : Item) : List Item → List Item
  | [] => [a]
  | b :: bs => if keyLt b a then b :: insAsc a bs else a :: b :: bs

/-- Stable ascending sort by key, modelling the Python list.sort call with
the tuple key (list.sort is exactly the stable ascending sort by its key, and
the stable ascending sort of a list is unique). -/
def sortStable : List Item → List Item
  | [] => []
  | a :: as => insAsc a (sortStable as)

/-- Final aggregation step: the stable ascending sort of the item list. -/
def finalize (st : State) : State :=
  { st with expiring_items := sortStable st.expiring_items }

/-- Source function process_excel_file over a whole upload: reset the state;
a workbook that cannot be opened reports failure with the reset state;
otherwise every sheet runs behind its per-sheet exception boundary and the
collected items are sorted at the end. -/
def process_excel_file (cfg : Config) (up : Upload) : Bool × State :=
  match up with
  | .openFail => (false, initState)
  | .wb sheets => (true, finalize (sheets.foldl (sheetStep cfg) initState))

end ExpiryApp

namespace ExpiryApp

/-! ### Order facts about the sort keys -/

theorem keyLt_eq_false_imp_keyLe {a b : Item} (h : keyLt b a = false) :
    keyLe a b = true := by
  simp only [keyLt, keyLe, Bool.or_eq_false_iff, Bool.and_eq_false_iff,
    decide_eq_false_iff_not, Bool.or_eq_true, Bool.and_eq_true, decide_eq_true_eq] at *
  omega

theorem keyLt_imp_keyLe {a b : Item} (h : keyLt a b = true) : keyLe a b = true := by
  simp only [keyLt, keyLe, Bool.or_eq_true, Bool.and_eq_true, decide_eq_true_eq] at *
  omega

theorem keyLe_trans {a b c : Item} (h1 : keyLe a b = true) (h2 : keyLe b c = true) :
    keyLe a c = true := by
  simp only [keyLe, Bool.or_eq_true, Bool.and_eq_true, decide_eq_true_eq] at *
  omega

theorem keyLt_of_ne_key {a b : Item} (h : keyLt b a = true) : itemKey b ≠ itemKey a := by
  simp only [keyLt, Bool.or_eq_true, Bool.and_eq_true, decide_eq_true_eq] at h
  intro he
  rw [he] at h
  omega

/-! ### Stable insertion sort: membership, permutation, sortedness, stability -/

theorem insAsc_cons_true {a b : Item} {bs : List Item} (h : keyLt b a = true) :
    insAsc a (b :: bs) = b :: insAsc a bs := by
  simp [insAsc, h]

theorem insAsc_cons_false {a b : Item} {bs : List Item} (h : keyLt b a = false) :
    insAsc a (b :: bs) = a :: b :: bs := by
  simp [insAsc, h]

theorem mem_insAsc (a x : Item) : ∀ l : List Item, x ∈ insAsc a l ↔ x = a ∨ x ∈ l := by
  intro l
  induction l with
  | nil => simp [insAsc]
  | cons b bs ih =>
    cases h : keyLt b a with
    | true =>
      rw [insAsc_cons_true h]
      simp only [List.mem_cons, ih]
      tauto
    | false =>
      rw [insAsc_cons_false h]
      simp only [List.mem_cons]

theorem insAsc_perm (a : Item) : ∀ l : List Item, List.Perm (insAsc a l) (a :: l) := by
  intro l
  induction l with
  | nil => simp [insAsc]
  | cons b bs ih =>
    cases h : keyLt b a with
    | true =>
      rw [insAsc_cons_true h]
      exact (ih.cons b).trans (List.Perm.swap a b bs)
    | false =>
      rw [insAsc_cons_false h]

theorem sortStable_perm : ∀ l : List Item, List.Perm (sortStable l) l := by
  intro l
  induction l with
  | nil => simp [sortStable]
  | cons a as ih => exact (insAsc_perm a (sortStable as)).trans (ih.cons a)

theorem mem_sortStable (x : Item) (l : List Item) : x ∈ sortStable l ↔ x ∈ l :=
  (sortStable_perm l).mem_iff

theorem length_sortStable (l : List Item) : (sortStable l).length = l.length :=
  (sortStable_perm l).length_eq

theorem pairwise_insAsc (a : Item) :
    ∀ l : List Item, l.Pairwise (fun x y => keyLe x y = true) →
      (insAsc a l).Pairwise (fun x y => keyLe x y = true) := by
  intro l
  induction l with
  | nil => simp [insAsc]
  | cons b bs ih =>
    intro hp
    rcases List.pairwise_cons.mp hp with ⟨hb, hbs⟩
    cases h : keyLt b a with
    | true =>
      rw [insAsc_cons_true h]
      refine List.pairwise_cons.mpr ⟨?_, ih hbs⟩
      intro y hy
      rcases (mem_insAsc a y bs).mp hy with rfl | hy2
      · exact keyLt_imp_keyLe h
      · exact hb y hy2
    | false =>
      rw [insAsc_cons_false h]
      refine List.pairwise_cons.mpr ⟨?_, hp⟩
      intro y hy
      rcases List.mem_cons.mp hy with rfl | hy2
      · exact keyLt_eq_false_imp_keyLe h
      · exact keyLe_trans (keyLt_eq_false_imp_keyLe h) (hb y hy2)

theorem pairwise_sortStable : ∀ l : List Item,
    (sortStable l).Pairwise (fun x y => keyLe x y = true) := by
  intro l
  induction l with
  | nil => simp [sortStable]
  | cons a as ih => exact pairwise_insAsc a (sortStable as) ih

theorem filter_insAsc (a : Item) (k : Nat × Int) :
    ∀ l : List Item,
      (insAsc a l).filter (fun x => itemKey x == k)
        = if itemKey a == k then a :: l.filter (fun x => itemKey x == k)
          else l.filter (fun x => itemKey x == k) := by
  intro l
  induction l with
  | nil => cases hk : (itemKey a == k) <;> simp [insAsc, hk]
  | cons b bs ih =>
    cases h : keyLt b a with
    | false =>
      rw [insAsc_cons_false h]
      cases hk : (itemKey a == k) <;> simp [hk, List.filter]
    | true =>
      rw [insAsc_cons_true h]
      cases hk : (itemKey a == k) with
      | false => simp [hk, List.filter, ih]
      | true =>
        have hk2 : itemKey a = k := by simpa using hk
        have hbk : (itemKey b == k) = false := by
          have hne := keyLt_of_ne_key h
          simp only [beq_eq_false_iff_ne, ne_eq]
          rw [← hk2]
          exact hne
        simp [hk, hbk, List.filter, ih]

theorem filter_sortStable (k : Nat × Int) : ∀ l : List Item,
    (sortStable l).filter (fun x => itemKey x == k)
      = l.filter (fun x => itemKey x == k) := by
  intro l
  induction l with
  | nil => simp [sortStable]
  | cons a as ih =>
    cases hk : (itemKey a == k) with
    | true => simp [sortStable, filter_insAsc, hk, ih, List.filter]
    | false => simp [sortStable, filter_insAsc, hk, ih, List.filter]

/-! ### Generic fold invariance -/

theorem foldl_inv {α β : Type} {P : β → Prop} (f : β → α → β)
    (h : ∀ st a, P st → P (f st a)) :
    ∀ (l : List α) (st : β), P st → P (l.foldl f st) := by
  intro l
  induction l with
  | nil => intro st h1; exact h1
  | cons a as ih => intro st h1; exact ih _ (h st a h1)

end ExpiryApp

namespace ExpiryApp

/-! ### Claim theorems about the urgency function -/

/-- Claim C2: for every integer daysRemaining and positive warningPeriodDays,
calculate_urgency returns expired when daysRemaining is negative, critical on
0..30, urgent on 31..60, warning on 61..warningPeriodDays, and info when no
listed range applies; in particular 30 is critical, 31 and 60 are urgent, and
61 is warning whenever the warning period reaches 61. -/
theorem claim2_urgency_piecewise (d wd : Int) (hwd : 0 < wd) :
    (d < 0 → calculate_urgency d wd = "expired") ∧
    (0 ≤ d → d ≤ 30 → calculate_urgency d wd = "critical") ∧
    (31 ≤ d → d ≤ 60 → calculate_urgency d wd = "urgent") ∧
    (61 ≤ d → d ≤ wd → calculate_urgency d wd = "warning") ∧
    (¬ d < 0 → ¬ (0 ≤ d ∧ d ≤ 30) → ¬ (31 ≤ d ∧ d ≤ 60) → ¬ (61 ≤ d ∧ d ≤ wd) →
      calculate_urgency d wd = "info") ∧
    calculate_urgency 30 wd = "critical" ∧
    calculate_urgency 31 wd = "urgent" ∧
    calculate_urgency 60 wd = "urgent" ∧
    (61 ≤ wd → calculate_urgency 61 wd = "warning") := by
  unfold calculate_urgency
  refine ⟨?_, ?_, ?_, ?_, ?_, ?_, ?_, ?_, ?_⟩ <;> intros <;> split_ifs <;>
    first | rfl | omega

/-- Witness for claim C2 at daysRemaining 45 and warning period 90. -/
theorem claim2_urgency_piecewise_witness : calculate_urgency 45 90 = "urgent" :=
  (claim2_urgency_piecewise 45 90 (by decide)).2.2.1 (by decide) (by decide)

/-- Claim C7: once a value has passed the row-inclusion filter
(0 <= daysRemaining <= warningPeriodDays), the expired and info branches of
the urgency function are unreachable. -/
theorem claim7_dead_branches (d wd : Int) (hwd : 0 < wd) (h0 : 0 ≤ d) (h1 : d ≤ wd) :
    calculate_urgency d wd ≠ "expired" ∧ calculate_urgency d wd ≠ "info" := by
  unfold calculate_urgency
  split_ifs <;> first | (exfalso; omega) | (constructor <;> decide)

/-- Witness for claim C7 at daysRemaining 5 and warning period 90. -/
theorem claim7_dead_branches_witness :
    calculate_urgency 5 90 ≠ "expired" ∧ calculate_urgency 5 90 ≠ "info" :=
  claim7_dead_branches 5 90 (by decide) (by decide) (by decide)

/-- Claim C8: for a fixed positive warning period the urgency rank of the
result of calculate_urgency is monotonically non-decreasing in daysRemaining,
also when the warning period is below 60 and the warning rank is skipped. -/
theorem claim8_rank_monotone (wd d1 d2 : Int) (hwd : 0 < wd) (h : d1 ≤ d2) :
    urgencyRank (calculate_urgency d1 wd) ≤ urgencyRank (calculate_urgency d2 wd) := by
  unfold calculate_urgency
  split_ifs <;> first | decide | (exfalso; omega)

/-- Witness for claim C8 with a warning period below 60, across the skipped
warning rank. -/
theorem claim8_rank_monotone_witness :
    urgencyRank (calculate_urgency 50 40) ≤ urgencyRank (calculate_urgency 61 40) :=
  claim8_rank_monotone 40 50 61 (by decide) (by decide)

end ExpiryApp

namespace ExpiryApp

/-! ### Unfolding equations for the loop functions -/

theorem processRows_nil (cfg : Config) (sheetName : String) (itemCol : Option String)
    (dateCol : String) (cols : List Col) (st : State) (fuel : Option Nat) :
    processRows cfg sheetName itemCol dateCol cols [] st fuel = (st, fuel) := rfl

theorem processRows_cons_done {fuel : Option Nat} (cfg : Config) (sheetName : String)
    (itemCol : Option String) (dateCol : String) (cols : List Col)
    (r : List Cell) (rs : List (List Cell)) (st : State) (h : fuelDone fuel = true) :
    processRows cfg sheetName itemCol dateCol cols (r :: rs) st fuel = (st, fuel) := by
  simp [processRows, h]

theorem processRows_cons_go {fuel : Option Nat} (cfg : Config) (sheetName : String)
    (itemCol : Option String) (dateCol : String) (cols : List Col)
    (r : List Cell) (rs : List (List Cell)) (st : State) (h : fuelDone fuel = false) :
    processRows cfg sheetName itemCol dateCol cols (r :: rs) st fuel
      = processRows cfg sheetName itemCol dateCol cols rs
          (processRow cfg sheetName itemCol dateCol cols r st) (fuelTick fuel) := by
  simp [processRows, h]

theorem processDateCols_nil (cfg : Config) (sheetName : String) (tbl : Table)
    (st : State) (fuel : Option Nat) :
    processDateCols cfg sheetName [] tbl st fuel = st := rfl

theorem processDateCols_cons_done {fuel : Option Nat} (cfg : Config) (sheetName : String)
    (dc : String) (dcs : List String) (tbl : Table) (st : State)
    (h : fuelDone fuel = true) :
    processDateCols cfg sheetName (dc :: dcs) tbl st fuel = st := by
  simp [processDateCols, h]

theorem processDateCols_cons_go {fuel : Option Nat} (cfg : Config) (sheetName : String)
    (dc : String) (dcs : List String) (tbl : Table) (st : State)
    (h : fuelDone fuel = false) :
    processDateCols cfg sheetName (dc :: dcs) tbl st fuel
      = processDateCols cfg sheetName dcs (convertCol tbl dc)
          (processRows cfg sheetName (detect_item_column tbl dc) dc
            (convertCol tbl dc).cols (convertCol tbl dc).rows st fuel).1
          (processRows cfg sheetName (detect_item_column tbl dc) dc
            (convertCol tbl dc).cols (convertCol tbl dc).rows st fuel).2 := by
  simp [processDateCols, h]

theorem processSheet_readFail (cfg : Config) (sheetName : String) (st : State) :
    processSheet cfg sheetName SheetData.readFail st = st := rfl

theorem processSheet_table_empty {tbl : Table} (cfg : Config) (sheetName : String)
    (fuel : Option Nat) (st : State) (h : (tbl.rows.isEmpty || tbl.cols.isEmpty) = true) :
    processSheet cfg sheetName (SheetData.table tbl fuel) st = st := by
  simp [processSheet, h]

theorem processSheet_table_go {tbl : Table} (cfg : Config) (sheetName : String)
    (fuel : Option Nat) (st : State) (h : (tbl.rows.isEmpty || tbl.cols.isEmpty) = false) :
    processSheet cfg sheetName (SheetData.table tbl fuel) st
      = processDateCols cfg sheetName (detect_date_columns cfg.today tbl) tbl
          { st with sheets_processed := st.sheets_processed + 1 } fuel := by
  simp [processSheet, h]

theorem sheetStep_skip {cfg : Config} {entry : String × SheetData} (st : State)
    (h : cfg.exclude_sheets.contains entry.1 = true) :
    sheetStep cfg st entry = st := by
  unfold sheetStep
  rw [h]
  rfl

theorem sheetStep_go {cfg : Config} {entry : String × SheetData} (st : State)
    (h : cfg.exclude_sheets.contains entry.1 = false) :
    sheetStep cfg st entry = processSheet cfg entry.1 entry.2 st := by
  unfold sheetStep
  rw [h]
  rfl

theorem processRow_null {cols : List Col} {r : List Cell} {dateCol : String}
    (cfg : Config) (sheetName : String) (itemCol : Option String) (st : State)
    (h : cellDate (rowVal cols r dateCol) = none) :
    processRow cfg sheetName itemCol dateCol cols r st = st := by
  simp [processRow, h]

theorem processRow_adm {cols : List Col} {r : List Cell} {dateCol : String} {t : Int}
    (cfg : Config) (sheetName : String) (itemCol : Option String) (st : State)
    (h : cellDate (rowVal cols r dateCol) = some t)
    (hd : 0 ≤ t - cfg.today ∧ t - cfg.today ≤ cfg.warning_days) :
    processRow cfg sheetName itemCol dateCol cols r st
      = { st with total_rows := st.total_rows + 1,
                  expiring_items :=
                    st.expiring_items ++ [mkItem cfg sheetName itemCol dateCol cols r t],
                  items_found := st.items_found + 1 } := by
  simp only [processRow, h]
  rw [if_pos hd]

theorem processRow_rej {cols : List Col} {r : List Cell} {dateCol : String} {t : Int}
    (cfg : Config) (sheetName : String) (itemCol : Option String) (st : State)
    (h : cellDate (rowVal cols r dateCol) = some t)
    (hd : ¬ (0 ≤ t - cfg.today ∧ t - cfg.today ≤ cfg.warning_days)) :
    processRow cfg sheetName itemCol dateCol cols r st
      = { st with total_rows := st.total_rows + 1 } := by
  simp only [processRow, h]
  rw [if_neg hd]

/-! ### Generic invariant preservation through the pipeline -/

theorem processRow_cases {P : State → Prop}
    (cfg : Config) (sheetName : String) (itemCol : Option String) (dateCol : String)
    (cols : List Col) (r : List Cell) (st : State)
    (hadm : ∀ t, cellDate (rowVal cols r dateCol) = some t →
      0 ≤ t - cfg.today → t - cfg.today ≤ cfg.warning_days →
      P { st with total_rows := st.total_rows + 1,
                  expiring_items :=
                    st.expiring_items ++ [mkItem cfg sheetName itemCol dateCol cols r t],
                  items_found := st.items_found + 1 })
    (hrej : ∀ t, cellDate (rowVal cols r dateCol) = some t →
      P { st with total_rows := st.total_rows + 1 })
    (hnone : P st) :
    P (processRow cfg sheetName itemCol dateCol cols r st) := by
  cases hc : cellDate (rowVal cols r dateCol) with
  | none => rw [processRow_null cfg sheetName itemCol st hc]; exact hnone
  | some t =>
    by_cases hd : 0 ≤ t - cfg.today ∧ t - cfg.today ≤ cfg.warning_days
    · rw [processRow_adm cfg sheetName itemCol st hc hd]
      exact hadm t hc hd.1 hd.2
    · rw [processRow_rej cfg sheetName itemCol st hc hd]
      exact hrej t hc

theorem processRows_inv {P : State → Prop} {cfg : Config} {sheetName : String}
    {itemCol : Option String} {dateCol : String} {cols : List Col}
    (hrow : ∀ r st, P st → P (processRow cfg sheetName itemCol dateCol cols r st)) :
    ∀ (rows : List (List Cell)) (st : State) (fuel : Option Nat), P st →
      P (processRows cfg sheetName itemCol dateCol cols rows st fuel).1 := by
  intro rows
  induction rows with
  | nil => intro st fuel h; rw [processRows_nil]; exact h
  | cons r rs ih =>
    intro st fuel h
    cases hf : fuelDone fuel with
    | true => rw [processRows_cons_done cfg sheetName itemCol dateCol cols r rs st hf]; exact h
    | false =>
      rw [processRows_cons_go cfg sheetName itemCol dateCol cols r rs st hf]
      exact ih _ _ (hrow r st h)

theorem processDateCols_inv {P : State → Prop} {cfg : Config} {sheetName : String}
    (hrow : ∀ itemCol dateCol cols r st, P st →
      P (processRow cfg sheetName itemCol dateCol cols r st)) :
    ∀ (dcs : List String) (tbl : Table) (st : State) (fuel : Option Nat), P st →
      P (processDateCols cfg sheetName dcs tbl st fuel) := by
  intro dcs
  induction dcs with
  | nil => intro tbl st fuel h; rw [processDateCols_nil]; exact h
  | cons dc dcs ih =>
    intro tbl st fuel h
    cases hf : fuelDone fuel with
    | true => rw [processDateCols_cons_done cfg sheetName dc dcs tbl st hf]; exact h
    | false =>
      rw [processDateCols_cons_go cfg sheetName dc dcs tbl st hf]
      exact ih _ _ _ (processRows_inv (fun r st => hrow _ _ _ r st) _ _ _ h)

theorem processSheet_inv {P : State → Prop} {cfg : Config} {sheetName : String}
    (hrow : ∀ itemCol dateCol cols r st, P st →
      P (processRow cfg sheetName itemCol dateCol cols r st))
    (hsheets : ∀ st, P st → P { st with sheets_processed := st.sheets_processed + 1 }) :
    ∀ (sd : SheetData) (st : State), P st → P (processSheet cfg sheetName sd st) := by
  intro sd st h
  cases sd with
  | readFail => rw [processSheet_readFail]; exact h
  | table tbl fuel =>
    cases he : (tbl.rows.isEmpty || tbl.cols.isEmpty) with
    | true => rw [processSheet_table_empty cfg sheetName fuel st he]; exact h
    | false =>
      rw [processSheet_table_go cfg sheetName fuel st he]
      exact processDateCols_inv hrow _ _ _ _ (hsheets st h)

theorem run_inv {P : State → Prop} {cfg : Config}
    (hrow : ∀ sheetName itemCol dateCol cols r st, P st →
      P (processRow cfg sheetName itemCol dateCol cols r st))
    (hsheets : ∀ st, P st → P { st with sheets_processed := st.sheets_processed + 1 })
    (hinit : P initState) :
    ∀ sheets : List (String × SheetData), P (sheets.foldl (sheetStep cfg) initState) := by
  intro sheets
  refine foldl_inv (sheetStep cfg) ?_ sheets initState hinit
  intro st e h
  cases hc : cfg.exclude_sheets.contains e.1 with
  | true => rw [sheetStep_skip st hc]; exact h
  | false => rw [sheetStep_go st hc]; exact processSheet_inv (hrow e.1) hsheets e.2 st h

end ExpiryApp

namespace ExpiryApp

/-! ### Claim C9: the found counter tracks the item collection -/

theorem countInv_row (cfg : Config) (sheetName : String) (itemCol : Option String)
    (dateCol : String) (cols : List Col) (r : List Cell) (st : State)
    (hst : st.items_found = st.expiring_items.length) :
    (processRow cfg sheetName itemCol dateCol cols r st).items_found
      = (processRow cfg sheetName itemCol dateCol cols r st).expiring_items.length := by
  refine @processRow_cases (fun s => s.items_found = s.expiring_items.length)
    cfg sheetName itemCol dateCol cols r st ?_ ?_ hst
  · intro t hc h0 h1
    simp [hst]
  · intro t hc
    simpa using hst

/-- Claim C9: after every completed run, also when sheets failed behind the
exception boundary, the found counter equals the length of the item
collection: every append is paired with exactly one increment and both are
reset together at the start of the run. -/
theorem claim9_itemsFound_matches_length (cfg : Config) (up : Upload) :
    (process_excel_file cfg up).2.items_found
      = (process_excel_file cfg up).2.expiring_items.length := by
  cases up with
  | openFail => rfl
  | wb sheets =>
    have h := @run_inv (fun st => st.items_found = st.expiring_items.length) cfg
      (fun sheetName itemCol dateCol cols r st hst =>
        countInv_row cfg sheetName itemCol dateCol cols r st hst)
      (fun st hst => hst) rfl sheets
    show (finalize (sheets.foldl (sheetStep cfg) initState)).items_found
      = (finalize (sheets.foldl (sheetStep cfg) initState)).expiring_items.length
    simp only [finalize, length_sortStable]
    exact h

/-! ### Claim C1: the inclusion-filter invariant on every produced item -/

theorem daysInv_row (cfg : Config) (sheetName : String) (itemCol : Option String)
    (dateCol : String) (cols : List Col) (r : List Cell) (st : State)
    (hst : ∀ x ∈ st.expiring_items, 0 ≤ x.days_left ∧ x.days_left ≤ cfg.warning_days) :
    ∀ x ∈ (processRow cfg sheetName itemCol dateCol cols r st).expiring_items,
      0 ≤ x.days_left ∧ x.days_left ≤ cfg.warning_days := by
  refine @processRow_cases
    (fun s => ∀ x ∈ s.expiring_items, 0 ≤ x.days_left ∧ x.days_left ≤ cfg.warning_days)
    cfg sheetName itemCol dateCol cols r st ?_ ?_ hst
  · intro t hc h0 h1 x hx
    rcases List.mem_append.mp hx with hm | hm
    · exact hst x hm
    · rcases List.mem_singleton.mp hm with rfl
      exact ⟨h0, h1⟩
  · intro t hc
    exact hst

/-- Claim C1: every ExpiringItem a run actually produces satisfies
0 <= daysRemaining <= warningPeriodDays, for every workbook, warning period
and clock value; the bound comes from the row-inclusion filter, which runs
before urgency classification. -/
theorem claim1_inclusion_invariant (cfg : Config) (up : Upload) :
    ∀ it ∈ (process_excel_file cfg up).2.expiring_items,
      0 ≤ it.days_left ∧ it.days_left ≤ cfg.warning_days := by
  cases up with
  | openFail =>
    intro it hit
    exact absurd hit (List.not_mem_nil it)
  | wb sheets =>
    intro it hit
    have h := @run_inv
      (fun st => ∀ x ∈ st.expiring_items, 0 ≤ x.days_left ∧ x.days_left ≤ cfg.warning_days)
      cfg (daysInv_row cfg) (fun st hst => hst)
      (fun x hx => absurd hx (List.not_mem_nil x)) sheets
    apply h
    have he : (process_excel_file cfg (Upload.wb sheets)).2.expiring_items
        = sortStable ((sheets.foldl (sheetStep cfg) initState).expiring_items) := rfl
    rw [he] at hit
    exact (mem_sortStable it _).mp hit

/-! ### Concrete fixtures for witnesses and counterexamples -/

/-- Fixture config: warning period 90 days, no exclusions, clock value 0. -/
def cfgW : Config := ⟨90, [], 0⟩

/-- Fixture table: an item column and a date column, one row admitted
(10 days out) and one excluded (200 days out). -/
def tblW : Table :=
  ⟨[⟨"Item", Dtype.object⟩, ⟨"Expiry Date", Dtype.object⟩],
   [[Cell.text "A", Cell.date 10], [Cell.text "B", Cell.date 200]]⟩

/-- Fixture upload containing the fixture table as its only sheet. -/
def upW : Upload := Upload.wb [("S1", SheetData.table tblW none)]

/-- The single item the fixture run produces. -/
def itemW : Item := ⟨"S1", "A", 10, 10, "critical", []⟩

/-- Witness for claim C1: the fixture run produces itemW, and the theorem
bounds its daysRemaining by the window. -/
theorem claim1_inclusion_invariant_witness :
    0 ≤ itemW.days_left ∧ itemW.days_left ≤ cfgW.warning_days :=
  claim1_inclusion_invariant cfgW upW itemW (by decide)

end ExpiryApp

namespace ExpiryApp

/-! ### Claim C3: the per-sheet exception boundary commits partial results -/

/-- State extension: the item collection of the second state is the first
collection with new items appended at the end, and every counter is at least
its old value. -/
def StExt (st st2 : State) : Prop :=
  (∃ extra, st2.expiring_items = st.expiring_items ++ extra) ∧
  st.total_rows ≤ st2.total_rows ∧
  st.sheets_processed ≤ st2.sheets_processed ∧
  st.items_found ≤ st2.items_found

theorem StExt_refl (st : State) : StExt st st :=
  ⟨⟨[], by simp⟩, Nat.le.refl, Nat.le.refl, Nat.le.refl⟩

theorem StExt_trans {a b c : State} (h1 : StExt a b) (h2 : StExt b c) : StExt a c := by
  obtain ⟨⟨e1, he1⟩, t1, s1, i1⟩ := h1
  obtain ⟨⟨e2, he2⟩, t2, s2, i2⟩ := h2
  exact ⟨⟨e1 ++ e2, by rw [he2, he1, List.append_assoc]⟩,
    Nat.le_trans t1 t2, Nat.le_trans s1 s2, Nat.le_trans i1 i2⟩

theorem processRow_ext (cfg : Config) (sheetName : String) (itemCol : Option String)
    (dateCol : String) (cols : List Col) (r : List Cell) (st : State) :
    StExt st (processRow cfg sheetName itemCol dateCol cols r st) := by
  refine @processRow_cases (fun s => StExt st s)
    cfg sheetName itemCol dateCol cols r st ?_ ?_ (StExt_refl st)
  · intro t hc h0 h1
    exact ⟨⟨[mkItem cfg sheetName itemCol dateCol cols r t], rfl⟩,
      Nat.le_succ _, Nat.le.refl, Nat.le_succ _⟩
  · intro t hc
    exact ⟨⟨[], by simp⟩, Nat.le_succ _, Nat.le.refl, Nat.le.refl⟩

theorem processSheet_ext (cfg : Config) (sheetName : String) (sd : SheetData) (st : State) :
    StExt st (processSheet cfg sheetName sd st) :=
  @processSheet_inv (StExt st) cfg sheetName
    (fun itemCol dateCol cols r s hs =>
      StExt_trans hs (processRow_ext cfg sheetName itemCol dateCol cols r s))
    (fun s hs => StExt_trans hs ⟨⟨[], by simp⟩, Nat.le.refl, Nat.le_succ _, Nat.le.refl⟩)
    sd st (StExt_refl st)

theorem sheetStep_ext (cfg : Config) (st : State) (entry : String × SheetData) :
    StExt st (sheetStep cfg st entry) := by
  cases hc : cfg.exclude_sheets.contains entry.1 with
  | true => rw [sheetStep_skip st hc]; exact StExt_refl st
  | false => rw [sheetStep_go st hc]; exact processSheet_ext cfg entry.1 entry.2 st

/-- Fixture for claim C3: a sheet whose exception fires after the first row
was fully processed (one admitted item, one scan), with a second valid row
never reached. -/
def sdFail : SheetData :=
  SheetData.table
    ⟨[⟨"Item", Dtype.object⟩, ⟨"Expiry Date", Dtype.object⟩],
     [[Cell.text "A", Cell.date 10], [Cell.text "B", Cell.date 20]]⟩
    (some 1)

/-- Counterexample to claim C3 as stated: in a run whose only sheet fails
mid-way, the committed row survives the exception — the run state after the
failure is not the state from before the sheet began (which was the reset
state with zero counters and no items). -/
theorem claim3_counterexample :
    (process_excel_file cfgW (Upload.wb [("S1", sdFail)])).2.items_found = 1 ∧
    (process_excel_file cfgW (Upload.wb [("S1", sdFail)])).2.total_rows = 1 ∧
    (process_excel_file cfgW (Upload.wb [("S1", sdFail)])).2.expiring_items ≠ [] ∧
    (process_excel_file cfgW (Upload.wb [("S1", sdFail)])).2 ≠ initState := by
  decide

/-- Claim C3 amended: any exception while reading or interpreting a sheet is
caught at the sheet boundary and the run continues with the next sheet, but
the partial results of the failed sheet up to the failure point are retained,
not discarded: the whole run equals the runs of the later sheets continued
from the post-failure state, and that state extends the pre-sheet state
(items only appended, counters only grown). -/
theorem claim3_amended_partial_commit (cfg : Config)
    (pre post : List (String × SheetData)) (name : String) (sd : SheetData) :
    (process_excel_file cfg (Upload.wb (pre ++ (name, sd) :: post))).2
      = finalize (post.foldl (sheetStep cfg)
          (sheetStep cfg (pre.foldl (sheetStep cfg) initState) (name, sd))) ∧
    StExt (pre.foldl (sheetStep cfg) initState)
      (sheetStep cfg (pre.foldl (sheetStep cfg) initState) (name, sd)) := by
  constructor
  · show finalize ((pre ++ (name, sd) :: post).foldl (sheetStep cfg) initState) = _
    rw [List.foldl_append, List.foldl_cons]
  · exact sheetStep_ext cfg _ (name, sd)

end ExpiryApp

namespace ExpiryApp

/-! ### Claim C4: per-column key extraction semantics -/

/-- The per-column key search exactly as claim C4 words it: the five keyword
groups are tested in order and the first keyword hit selects only that
group's key, ending all testing for the column. -/
def findFirstGroup (colStr : String) : Option String :=
  (additional_keywords.find? (fun kg => kg.2.any (fun kw => substrOf kw colStr))).map Prod.fst

/-- The extraction procedure exactly as claim C4 describes it: each column
contributes at most one info key, namely the group of its first keyword hit. -/
def extractClaimProcedure (cols : List Col) (r : List Cell)
    (itemCol : Option String) (dateCol : String) : List (String × String) :=
  cols.foldl (fun info c =>
    if c.name == dateCol || itemCol == some c.name then info
    else if cellNotNa (rowVal cols r c.name) then
      match findFirstGroup (lowerStr c.name) with
      | some k => dictInsert info k (cellStr (rowVal cols r c.name))
      | none => info
    else info) []

/-- The keys of all keyword groups a normalized column name matches. -/
def colMatchedKeys (colStr : String) : List String :=
  (additional_keywords.filter (fun kg => kg.2.any (fun kw => substrOf kw colStr))).map Prod.fst

/-- The groupwise extraction procedure: every group with a keyword hit stores
the stringified value under its key, one insertion per matching group. -/
def extractAmended (cols : List Col) (r : List Cell)
    (itemCol : Option String) (dateCol : String) : List (String × String) :=
  cols.foldl (fun info c =>
    if c.name == dateCol || itemCol == some c.name then info
    else if cellNotNa (rowVal cols r c.name) then
      (colMatchedKeys (lowerStr c.name)).foldl
        (fun info2 k => dictInsert info2 k (cellStr (rowVal cols r c.name))) info
    else info) []

theorem foldl_congr_fun {α β : Type} {f g : β → α → β} (h : ∀ b a, f b a = g b a) :
    ∀ (l : List α) (b : β), l.foldl f b = l.foldl g b := by
  intro l
  induction l with
  | nil => intro b; rfl
  | cons a as ih => intro b; rw [List.foldl_cons, List.foldl_cons, h, ih]

theorem foldl_filter_map {α β γ : Type} (p : α → Bool) (g : α → γ) (f : β → γ → β) :
    ∀ (l : List α) (b : β),
      ((l.filter p).map g).foldl f b
        = l.foldl (fun acc x => if p x then f acc (g x) else acc) b := by
  intro l
  induction l with
  | nil => intro b; rfl
  | cons a as ih =>
    intro b
    cases hp : p a with
    | true => simp [List.filter_cons, hp, ih]
    | false => simp [List.filter_cons, hp, ih]

theorem extract_eq_amended (cols : List Col) (r : List Cell)
    (itemCol : Option String) (dateCol : String) :
    extract_additional_info cols r itemCol dateCol = extractAmended cols r itemCol dateCol := by
  unfold extract_additional_info extractAmended
  refine foldl_congr_fun ?_ cols []
  intro info c
  cases hg : (c.name == dateCol || itemCol == some c.name) with
  | true => rfl
  | false =>
    simp only [if_neg Bool.false_ne_true]
    cases hv : cellNotNa (rowVal cols r c.name) with
    | false => rfl
    | true =>
      simp only [eq_self_iff_true, if_true]
      unfold colMatchedKeys
      rw [foldl_filter_map]

/-- Counterexample to claim C4 as stated: for a column named Storage Volume
the source function stores the value under both the quantity and the location
key (the break in the source only ends the keyword loop of the current
group), while the procedure described by the claim stops testing the column
after its first keyword hit and never produces the location key. -/
theorem claim4_counterexample :
    (extract_additional_info [⟨"Storage Volume", Dtype.object⟩] [Cell.text "5L"]
      none "D").lookup "location" = some "5L" ∧
    (extractClaimProcedure [⟨"Storage Volume", Dtype.object⟩] [Cell.text "5L"]
      none "D").lookup "location" = none ∧
    extract_additional_info [⟨"Storage Volume", Dtype.object⟩] [Cell.text "5L"] none "D"
      ≠ extractClaimProcedure [⟨"Storage Volume", Dtype.object⟩] [Cell.text "5L"] none "D" := by
  decide

/-- Claim C4 amended: extract equals the groupwise procedure in which, for
each column other than the item and date columns whose value is non-null,
every one of the five keyword groups is tested in order and each group with a
keyword hit stores the stringified cell value under that group's key — the
first keyword hit within a group only ends that group's keyword tests, so a
column can contribute up to one key per group, possibly several keys in
total; when two different columns match the same key the later column in
table order overwrites the earlier value, and a column named Lot Number with
non-null value L123 yields lot = L123. -/
theorem claim4_amended_groupwise :
    (∀ (cols : List Col) (r : List Cell) (itemCol : Option String) (dateCol : String),
      extract_additional_info cols r itemCol dateCol = extractAmended cols r itemCol dateCol) ∧
    (extract_additional_info [⟨"Lot Number", Dtype.object⟩] [Cell.text "L123"]
      none "D").lookup "lot" = some "L123" ∧
    (extract_additional_info [⟨"Lot A", Dtype.object⟩, ⟨"Batch B", Dtype.object⟩]
      [Cell.text "L1", Cell.text "L2"] none "D").lookup "lot" = some "L2" :=
  ⟨extract_eq_amended, by decide, by decide⟩

end ExpiryApp

namespace ExpiryApp

/-! ### Claim C5: the final list is the stable ascending sort by key -/

/-- Claim C5: the aggregated result list is the sheet-then-row traversal list
sorted stably and ascending by the key (urgency rank, days left), with ranks
expired 0, critical 1, urgent 2, warning 3, info 4 and 999 for an
unrecognized urgency; consequently the output is pairwise ordered — an item
with strictly smaller rank always comes first, so every critical item
precedes every urgent item regardless of days, and within equal rank smaller
daysRemaining comes first — and items with equal key keep their traversal
order: filtering the output by any fixed key yields exactly the filtered
unsorted traversal list, in order. -/
theorem claim5_sorted_stable (cfg : Config) (sheets : List (String × SheetData)) :
    (process_excel_file cfg (Upload.wb sheets)).2.expiring_items
        = sortStable ((sheets.foldl (sheetStep cfg) initState).expiring_items) ∧
    List.Pairwise (fun a b =>
        urgencyRank a.urgency < urgencyRank b.urgency ∨
          (urgencyRank a.urgency = urgencyRank b.urgency ∧ a.days_left ≤ b.days_left))
      (process_excel_file cfg (Upload.wb sheets)).2.expiring_items ∧
    (∀ k : Nat × Int,
      ((process_excel_file cfg (Upload.wb sheets)).2.expiring_items.filter
          (fun x => itemKey x == k))
        = ((sheets.foldl (sheetStep cfg) initState).expiring_items.filter
          (fun x => itemKey x == k))) ∧
    urgencyRank "expired" = 0 ∧ urgencyRank "critical" = 1 ∧ urgencyRank "urgent" = 2 ∧
    urgencyRank "warning" = 3 ∧ urgencyRank "info" = 4 ∧ urgencyRank "unexpected" = 999 := by
  refine ⟨rfl, ?_, ?_, by decide, by decide, by decide, by decide, by decide, by decide⟩
  · have hp := pairwise_sortStable ((sheets.foldl (sheetStep cfg) initState).expiring_items)
    have he : (process_excel_file cfg (Upload.wb sheets)).2.expiring_items
        = sortStable ((sheets.foldl (sheetStep cfg) initState).expiring_items) := rfl
    rw [he]
    refine hp.imp ?_
    intro a b hab
    simpa [keyLe, itemKey, Bool.or_eq_true, Bool.and_eq_true, decide_eq_true_eq] using hab
  · intro k
    exact filter_sortStable k _

end ExpiryApp

namespace ExpiryApp

/-! ### Claim C10: the item-column resolver never returns the date column -/

theorem colIdx_lt_ne : ∀ (cols : List Col) (name : String) (i j : Nat) (c : Col),
    colIdx cols name = some i → j < i → cols[j]? = some c → c.name ≠ name := by
  intro cols
  induction cols with
  | nil => intro name i j c h; cases h
  | cons c0 cs ih =>
    intro name i j c h hj hg
    by_cases hc : (c0.name == name) = true
    · unfold colIdx at h
      rw [if_pos hc] at h
      injection h with h0
      exfalso
      omega
    · unfold colIdx at h
      rw [if_neg hc] at h
      obtain ⟨i2, hi2, hie⟩ := Option.map_eq_some'.mp h
      cases j with
      | zero =>
        rw [List.getElem?_cons_zero] at hg
        injection hg with hc0
        subst hc0
        simpa using hc
      | succ j2 =>
        rw [List.getElem?_cons_succ] at hg
        exact ih name i2 j2 c hi2 (by omega) hg

theorem leftScan_mem : ∀ (cols : List Col) (j : Nat) (nm : String),
    leftScan cols j = some nm → ∃ jj c, jj < j ∧ cols[jj]? = some c ∧ c.name = nm := by
  intro cols j
  induction j with
  | zero => intro nm h; cases h
  | succ j2 ih =>
    intro nm h
    unfold leftScan at h
    cases hg : cols[j2]? with
    | some c =>
      simp only [hg] at h
      by_cases hd : (c.dtype == Dtype.object) = true
      · rw [if_pos hd] at h
        injection h with hnm
        exact ⟨j2, c, Nat.lt_succ_self j2, hg, hnm⟩
      · rw [if_neg hd] at h
        obtain ⟨jj, c2, hlt, hget, hname⟩ := ih nm h
        exact ⟨jj, c2, Nat.lt_succ_of_lt hlt, hget, hname⟩
    | none =>
      simp only [hg] at h
      obtain ⟨jj, c2, hlt, hget, hname⟩ := ih nm h
      exact ⟨jj, c2, Nat.lt_succ_of_lt hlt, hget, hname⟩

/-- Claim C10: for every table and date column identifier the item-column
resolver returns either no column or a column different from the date column;
none of its three strategies (keyword match, positional left-scan, global
text-column fallback) can return the date column itself. -/
theorem claim10_resolver_avoids_date_col (tbl : Table) (dateCol : String) :
    detect_item_column tbl dateCol = none ∨
      ∃ c, detect_item_column tbl dateCol = some c ∧ c ≠ dateCol := by
  cases hr : detect_item_column tbl dateCol with
  | none => exact Or.inl rfl
  | some nm =>
    refine Or.inr ⟨nm, rfl, ?_⟩
    unfold detect_item_column at hr
    cases h1 : tbl.cols.find? (fun c =>
        c.name != dateCol && item_keywords.any (fun kw => substrOf kw (lowerStr c.name))) with
    | some c =>
      simp only [h1] at hr
      have hp := List.find?_some h1
      simp only [Bool.and_eq_true, bne_iff_ne, ne_eq] at hp
      injection hr with hnm
      rw [← hnm]
      exact hp.1
    | none =>
      simp only [h1] at hr
      cases h2 : colIdx tbl.cols dateCol with
      | some i =>
        simp only [h2] at hr
        cases h3 : leftScan tbl.cols i with
        | some s =>
          simp only [h3] at hr
          obtain ⟨jj, c, hlt, hget, hname⟩ := leftScan_mem tbl.cols i s h3
          have hne := colIdx_lt_ne tbl.cols dateCol i jj c h2 hlt hget
          injection hr with hs
          rw [← hs, ← hname]
          exact hne
        | none =>
          simp only [h3] at hr
          obtain ⟨c, h4, hc⟩ := Option.map_eq_some'.mp hr
          have hp := List.find?_some h4
          simp only [Bool.and_eq_true, bne_iff_ne, ne_eq] at hp
          rw [← hc]
          exact hp.1
      | none =>
        simp only [h2] at hr
        obtain ⟨c, h4, hc⟩ := Option.map_eq_some'.mp hr
        have hp := List.find?_some h4
        simp only [Bool.and_eq_true, bne_iff_ne, ne_eq] at hp
        rw [← hc]
        exact hp.1

end ExpiryApp

namespace ExpiryApp

/-! ### Claim C6: scan counting per (row, date-column) pair -/

/-- Number of rows whose value in the given date column survives the coercing
conversion (the non-null test the row loop performs after conversion). -/
def scanCount (tbl : Table) (dc : String) : Nat :=
  tbl.rows.countP (fun r => cellNotNa (toDatetime (rowVal tbl.cols r dc)))

theorem toDatetime_idem (x : Cell) : toDatetime (toDatetime x) = toDatetime x := by
  cases x <;> rfl

theorem cellNotNa_toDatetime (x : Cell) :
    cellNotNa (toDatetime x) = (cellDate (toDatetime x)).isSome := by
  cases x <;> rfl

theorem colIdx_get : ∀ (cols : List Col) (name : String) (i : Nat),
    colIdx cols name = some i → ∃ c, cols[i]? = some c ∧ c.name = name := by
  intro cols
  induction cols with
  | nil => intro name i h; cases h
  | cons c cs ih =>
    intro name i h
    by_cases hc : (c.name == name) = true
    · unfold colIdx at h
      rw [if_pos hc] at h
      injection h with h0
      subst h0
      exact ⟨c, by simp, by simpa using hc⟩
    · unfold colIdx at h
      rw [if_neg hc] at h
      obtain ⟨j, hj, hji⟩ := Option.map_eq_some'.mp h
      subst hji
      obtain ⟨c2, hg, hn⟩ := ih name j hj
      exact ⟨c2, by simpa using hg, hn⟩

theorem colIdx_congr : ∀ (cols cols2 : List Col) (n : String),
    cols.map Col.name = cols2.map Col.name → colIdx cols n = colIdx cols2 n := by
  intro cols
  induction cols with
  | nil =>
    intro cols2 n h
    cases cols2 with
    | nil => rfl
    | cons c2 cs2 => simp at h
  | cons c cs ih =>
    intro cols2 n h
    cases cols2 with
    | nil => simp at h
    | cons c2 cs2 =>
      simp only [List.map_cons, List.cons.injEq] at h
      unfold colIdx
      rw [h.1, ih cs2 n h.2]

theorem set_getD_self : ∀ (l : List Cell) (i : Nat) (v : Cell),
    (l.set i v).getD i Cell.null = if i < l.length then v else Cell.null := by
  intro l
  induction l with
  | nil => intro i v; cases i <;> simp [List.set]
  | cons a as ih =>
    intro i v
    cases i with
    | zero => simp [List.set]
    | succ i2 =>
      simp only [List.set, List.getD_cons_succ, List.length_cons]
      rw [ih i2 v]
      by_cases hi : i2 < as.length
      · rw [if_pos hi, if_pos (by omega)]
      · rw [if_neg hi, if_neg (by omega)]

theorem set_getD_ne : ∀ (l : List Cell) (i j : Nat) (v : Cell), i ≠ j →
    (l.set i v).getD j Cell.null = l.getD j Cell.null := by
  intro l
  induction l with
  | nil => intro i j v h; cases i <;> simp [List.set]
  | cons a as ih =>
    intro i j v h
    cases i with
    | zero =>
      cases j with
      | zero => exact absurd rfl h
      | succ j2 => simp [List.set]
    | succ i2 =>
      cases j with
      | zero => simp [List.set]
      | succ j2 =>
        simp only [List.set, List.getD_cons_succ]
        exact ih i2 j2 v (by omega)

theorem getD_default_of_le : ∀ (l : List Cell) (i : Nat), l.length ≤ i →
    l.getD i Cell.null = Cell.null := by
  intro l
  induction l with
  | nil => intro i h; cases i <;> rfl
  | cons a as ih =>
    intro i h
    cases i with
    | zero => simp at h
    | succ i2 =>
      rw [List.getD_cons_succ]
      exact ih i2 (by simpa using h)

end ExpiryApp

namespace ExpiryApp

theorem map_name_set : ∀ (cols : List Col) (i : Nat) (c c2 : Col),
    cols[i]? = some c → c2.name = c.name →
    (cols.set i c2).map Col.name = cols.map Col.name := by
  intro cols
  induction cols with
  | nil => intro i c c2 hg; cases i <;> simp at hg
  | cons c0 cs ih =>
    intro i c c2 hg hn
    cases i with
    | zero =>
      simp only [List.getElem?_cons_zero] at hg
      injection hg with hg0
      subst hg0
      simp [List.set, hn]
    | succ i2 =>
      simp only [List.getElem?_cons_succ] at hg
      simp only [List.set, List.map_cons]
      rw [ih i2 c c2 hg hn]

theorem convertCol_names (T : Table) (n : String) :
    (convertCol T n).cols.map Col.name = T.cols.map Col.name := by
  unfold convertCol
  cases hc : colIdx T.cols n with
  | none => rfl
  | some i =>
    cases hg : T.cols[i]? with
    | none => simp only [hg]
    | some c =>
      simp only [hg]
      exact map_name_set T.cols i c _ hg rfl

theorem convertCol_none (T : Table) (n : String) (h : colIdx T.cols n = none) :
    convertCol T n = T := by
  unfold convertCol
  rw [h]

theorem convertCol_rows_some (T : Table) (n : String) (i : Nat)
    (h : colIdx T.cols n = some i) :
    (convertCol T n).rows = T.rows.map (fun r => r.set i (toDatetime (r.getD i Cell.null))) := by
  unfold convertCol
  rw [h]

theorem rowVal_some {cols : List Col} {n : String} {i : Nat} (r : List Cell)
    (h : colIdx cols n = some i) : rowVal cols r n = r.getD i Cell.null := by
  unfold rowVal
  rw [h]

theorem rowVal_none {cols : List Col} {n : String} (r : List Cell)
    (h : colIdx cols n = none) : rowVal cols r n = Cell.null := by
  unfold rowVal
  rw [h]

theorem rowVal_convert_self (T : Table) (n : String) (i : Nat) (R : List Cell)
    (h : colIdx T.cols n = some i) :
    rowVal (convertCol T n).cols (R.set i (toDatetime (R.getD i Cell.null))) n
      = toDatetime (rowVal T.cols R n) := by
  have hc2 : colIdx (convertCol T n).cols n = some i := by
    rw [colIdx_congr (convertCol T n).cols T.cols n (convertCol_names T n)]
    exact h
  rw [rowVal_some _ hc2, rowVal_some R h]
  rw [set_getD_self]
  by_cases hi : i < R.length
  · rw [if_pos hi]
  · rw [if_neg hi, getD_default_of_le R i (by omega)]
    rfl

theorem rowVal_convert_ne (T : Table) (n m : String) (i : Nat) (R : List Cell)
    (h : colIdx T.cols n = some i) (hnm : m ≠ n) :
    rowVal (convertCol T n).cols (R.set i (toDatetime (R.getD i Cell.null))) m
      = rowVal T.cols R m := by
  have hc2 : colIdx (convertCol T n).cols m = colIdx T.cols m :=
    colIdx_congr (convertCol T n).cols T.cols m (convertCol_names T n)
  cases hm : colIdx T.cols m with
  | none => rw [rowVal_none _ (hc2.trans hm), rowVal_none R hm]
  | some j =>
    have hij : i ≠ j := by
      intro he
      subst he
      obtain ⟨c1, hg1, hn1⟩ := colIdx_get T.cols n i h
      obtain ⟨c2, hg2, hn2⟩ := colIdx_get T.cols m i hm
      rw [hg1] at hg2
      injection hg2 with hcc
      subst hcc
      exact hnm (by rw [← hn2, hn1])
    rw [rowVal_some _ (hc2.trans hm), rowVal_some R hm]
    exact set_getD_ne R i j _ hij

/-- Relation between the original table of a sheet and the partially
converted tables threaded through the date-column loop: the column names are
unchanged and every cell is either its original value or its coerced value. -/
def TblRel (tbl T : Table) : Prop :=
  T.cols.map Col.name = tbl.cols.map Col.name ∧
  List.Forall₂ (fun r R => ∀ n : String,
    rowVal T.cols R n = rowVal tbl.cols r n ∨
    rowVal T.cols R n = toDatetime (rowVal tbl.cols r n)) tbl.rows T.rows

theorem TblRel_refl (tbl : Table) : TblRel tbl tbl := by
  constructor
  · rfl
  · rw [List.forall₂_same]
    intro r hr n
    exact Or.inl rfl

theorem TblRel_convert {tbl T : Table} (n : String) (h : TblRel tbl T) :
    TblRel tbl (convertCol T n) := by
  obtain ⟨hnames, hrows⟩ := h
  constructor
  · rw [convertCol_names, hnames]
  · cases hc : colIdx T.cols n with
    | none => rw [convertCol_none T n hc]; exact hrows
    | some i =>
      rw [convertCol_rows_some T n i hc]
      rw [List.forall₂_map_right_iff]
      refine hrows.imp ?_
      intro r R hrel m
      by_cases hm : m = n
      · subst hm
        rw [rowVal_convert_self T m i R hc]
        rcases hrel m with he | he
        · rw [he]
          exact Or.inr rfl
        · rw [he, toDatetime_idem]
          exact Or.inr rfl
      · rw [rowVal_convert_ne T n m i R hc hm]
        exact hrel m

theorem countP_congr_forall2 {α β : Type} {p : α → Bool} {q : β → Bool} :
    ∀ {l : List α} {m : List β}, List.Forall₂ (fun a b => p a = q b) l m →
      l.countP p = m.countP q := by
  intro l m h
  induction h with
  | nil => rfl
  | cons hab hrest ih =>
    rw [List.countP_cons, List.countP_cons, ih, hab]

end ExpiryApp

namespace ExpiryApp

theorem fuelTick_none : fuelTick none = none := rfl

theorem processRow_total (cfg : Config) (sheetName : String) (itemCol : Option String)
    (dateCol : String) (cols : List Col) (r : List Cell) (st : State) :
    (processRow cfg sheetName itemCol dateCol cols r st).total_rows
      = st.total_rows + (cellDate (rowVal cols r dateCol)).isSome.toNat := by
  cases hc : cellDate (rowVal cols r dateCol) with
  | none => rw [processRow_null cfg sheetName itemCol st hc]; rfl
  | some t =>
    by_cases hd : 0 ≤ t - cfg.today ∧ t - cfg.today ≤ cfg.warning_days
    · rw [processRow_adm cfg sheetName itemCol st hc hd]
      rfl
    · rw [processRow_rej cfg sheetName itemCol st hc hd]
      rfl

theorem processRows_none_snd (cfg : Config) (sheetName : String) (itemCol : Option String)
    (dateCol : String) (cols : List Col) :
    ∀ (rows : List (List Cell)) (st : State),
      (processRows cfg sheetName itemCol dateCol cols rows st none).2 = none := by
  intro rows
  induction rows with
  | nil => intro st; rw [processRows_nil]
  | cons r rs ih =>
    intro st
    rw [@processRows_cons_go none cfg sheetName itemCol dateCol cols r rs st rfl, fuelTick_none]
    exact ih _

theorem processRows_total (cfg : Config) (sheetName : String) (itemCol : Option String)
    (dateCol : String) (cols : List Col) :
    ∀ (rows : List (List Cell)) (st : State),
      (processRows cfg sheetName itemCol dateCol cols rows st none).1.total_rows
        = st.total_rows + rows.countP (fun r => (cellDate (rowVal cols r dateCol)).isSome) := by
  intro rows
  induction rows with
  | nil => intro st; rw [processRows_nil]; simp
  | cons r rs ih =>
    intro st
    rw [@processRows_cons_go none cfg sheetName itemCol dateCol cols r rs st rfl, fuelTick_none]
    rw [ih, processRow_total, List.countP_cons]
    cases hc : (cellDate (rowVal cols r dateCol)).isSome <;> simp [hc] <;> omega

theorem scan_convert {tbl T : Table} (dc : String) (h : TblRel tbl T) :
    (convertCol T dc).rows.countP
        (fun R => (cellDate (rowVal (convertCol T dc).cols R dc)).isSome)
      = scanCount tbl dc := by
  obtain ⟨hnames, hrows⟩ := h
  unfold scanCount
  cases hc : colIdx T.cols dc with
  | none =>
    rw [convertCol_none T dc hc]
    have h2 : colIdx tbl.cols dc = none := by
      rw [colIdx_congr tbl.cols T.cols dc hnames.symm]
      exact hc
    rw [List.countP_eq_zero.mpr, List.countP_eq_zero.mpr]
    · intro r hr
      rw [rowVal_none r h2]
      simp [toDatetime, cellNotNa]
    · intro R hR
      rw [rowVal_none R hc]
      simp [cellDate]
  | some i =>
    rw [convertCol_rows_some T dc i hc, List.countP_map]
    refine (countP_congr_forall2 ?_).symm
    refine hrows.imp ?_
    intro r R hrel
    show cellNotNa (toDatetime (rowVal tbl.cols r dc))
        = (cellDate (rowVal (convertCol T dc).cols
            (R.set i (toDatetime (R.getD i Cell.null))) dc)).isSome
    rw [rowVal_convert_self T dc i R hc]
    rcases hrel dc with he | he
    · rw [he, cellNotNa_toDatetime]
    · rw [he, toDatetime_idem, cellNotNa_toDatetime]

theorem processDateCols_total (cfg : Config) (name : String) (tbl : Table) :
    ∀ (dcs : List String) (T : Table) (st : State), TblRel tbl T →
      (processDateCols cfg name dcs T st none).total_rows
        = st.total_rows + (dcs.map (scanCount tbl)).sum := by
  intro dcs
  induction dcs with
  | nil => intro T st h; rw [processDateCols_nil]; simp
  | cons dc dcs ih =>
    intro T st h
    rw [@processDateCols_cons_go none cfg name dc dcs T st rfl]
    rw [processRows_none_snd]
    rw [ih (convertCol T dc) _ (TblRel_convert dc h)]
    rw [processRows_total]
    rw [scan_convert dc h]
    rw [List.map_cons, List.sum_cons]
    omega

end ExpiryApp

namespace ExpiryApp

/-- Fixture sheet with two detected date columns; the first physical row has
non-null dates in both columns and is scanned twice, the second row only
once, so two physical rows yield three scans. -/
def tblTwoDates : Table :=
  ⟨[⟨"Item", Dtype.object⟩, ⟨"Expiry Date", Dtype.object⟩, ⟨"Valid Until", Dtype.object⟩],
   [[Cell.text "A", Cell.date 10, Cell.date 40], [Cell.text "B", Cell.null, Cell.date 50]]⟩

/-- Claim C6: for every processed sheet, totalRowsScanned grows by exactly one
per (row, detected-date-column) pair whose row has a non-null value in that
date column after conversion — the sum over the detected date columns of the
per-column non-null row counts; in particular the fixture sheet with two
detected date columns and two physical rows (one of them dated in both
columns) contributes three scans, not two. -/
theorem claim6_scan_counting :
    (∀ (cfg : Config) (name : String) (tbl : Table) (st : State),
      (processSheet cfg name (SheetData.table tbl none) st).total_rows
        = st.total_rows + ((detect_date_columns cfg.today tbl).map (scanCount tbl)).sum) ∧
    (processSheet cfgW "S" (SheetData.table tblTwoDates none) initState).total_rows = 3 ∧
    tblTwoDates.rows.length = 2 := by
  refine ⟨?_, by decide, by decide⟩
  intro cfg name tbl st
  cases he : (tbl.rows.isEmpty || tbl.cols.isEmpty) with
  | true =>
    rw [processSheet_table_empty cfg name none st he]
    have hz : ((detect_date_columns cfg.today tbl).map (scanCount tbl)).sum = 0 := by
      rcases (Bool.or_eq_true _ _).mp he with h | h
      · have hrows : tbl.rows = [] := by simpa using h
        refine List.sum_eq_zero ?_
        intro x hx
        rcases List.mem_map.mp hx with ⟨dc, hdc, hxe⟩
        rw [← hxe]
        unfold scanCount
        rw [hrows]
        rfl
      · have hcols : tbl.cols = [] := by simpa using h
        simp [detect_date_columns, hcols]
    rw [hz]
    rfl
  | false =>
    rw [processSheet_table_go cfg name none st he]
    rw [processDateCols_total cfg name tbl (detect_date_columns cfg.today tbl) tbl
      { st with sheets_processed := st.sheets_processed + 1 } (TblRel_refl tbl)]

end ExpiryApp
